import Mathlib

/-! Verification of the grid / coordinate / Game-of-Life core of `RasterArray.py`.

The Python source is shallowly embedded:
* numeric cell values, coordinates and cell dimensions are rationals (`ℚ`);
* Python `int()` on a number is truncation toward zero (`pyInt`);
* Python `%` on integers with a positive modulus is Euclidean `Int.emod`;
* the numpy array of a `Cells` object is a function `ℕ → ℕ → ℚ` indexed
  `array row col` (as in `self.array[Offsets[1], Offsets[0]]`);
* numpy fancy indexing errors become `Option` (`none` = raised IndexError);
  numpy's silent wrapping of negative indices in `[-n, -1]` is modelled in
  `npIndex`;
* fallible operations (`Cells.get`, `Cells.modify`, one cycle of the board)
  return `Option`.
-/

/-- Python `int()` applied to a (real) number: truncation toward zero,
i.e. floor for nonnegative arguments and ceiling for negative ones. -/
def pyInt (q : ℚ) : ℤ := if 0 ≤ q then ⌊q⌋ else ⌈q⌉

/-- Embedding of helper `(H2.) xyOffset` (src/RasterArray.py:154-157):
`xOffset = int((x - rasterOrigin[0])/cellWidth)`,
`yOffset = int(((y+1) - rasterOrigin[1])/cellHeight)`. -/
def xyOffset (x y : ℚ) (rasterOrigin : ℚ × ℚ) (cellWidth cellHeight : ℚ) : ℤ × ℤ :=
  (pyInt ((x - rasterOrigin.1) / cellWidth),
   pyInt ((y + 1 - rasterOrigin.2) / cellHeight))

/-- Spec-side transform, following the claim's words for C3:
`col = floor((x - origin.x) / cellWidth)`, `row = floor((y + 1 - origin.y) / cellHeight)`. -/
def xyOffsetFloorSpec (x y : ℚ) (rasterOrigin : ℚ × ℚ) (cellWidth cellHeight : ℚ) : ℤ × ℤ :=
  (⌊(x - rasterOrigin.1) / cellWidth⌋, ⌊(y + 1 - rasterOrigin.2) / cellHeight⌋)

/-- Spec-side truncation toward zero of a rational, written through the
numerator/denominator representation: `tdiv` is the integer division that
rounds toward zero. Used by the amended claim C3. -/
def ratTrunc (q : ℚ) : ℤ := q.num.tdiv q.den

/-- Embedding of the `Cells` object (src/RasterArray.py:253-306).
`array` is the numpy array, indexed `array row col`. -/
@[ext] structure Cells where
  array : ℕ → ℕ → ℚ
  EPSG : ℤ
  cols : ℕ
  rows : ℕ
  origin : ℚ × ℚ
  cellWidth : ℚ
  cellHeight : ℚ

/-- Numpy indexing of an axis of length `n` with an integer `i`:
`0 ≤ i < n` selects position `i`; a negative `i` with `-n ≤ i` silently
selects position `i + n` (numpy negative indexing); anything else raises
IndexError (`none`). -/
def npIndex (n : ℕ) (i : ℤ) : Option ℕ :=
  if 0 ≤ i ∧ i < (n : ℤ) then some i.toNat
  else if -(n : ℤ) ≤ i ∧ i < 0 then some (i + n).toNat
  else none

/-- Numpy indexing with a numeric (rational) subscript: only integral values
are legal subscripts, the rest raise (`none`). -/
def qIndex (n : ℕ) (q : ℚ) : Option ℕ :=
  if q.den = 1 then npIndex n q.num else none

/-- The offset computation shared by `Cells.modify` (1.1.1) and `Cells.get`
(1.2.1): geographic coordinates go through `xyOffset`, array references are
used directly: `Offsets = (x, y)`. -/
def Cells.offsets (c : Cells) (x y : ℚ) (geographic : Bool) : ℚ × ℚ :=
  if geographic then
    let o := xyOffset x y c.origin c.cellWidth c.cellHeight
    ((o.1 : ℚ), (o.2 : ℚ))
  else (x, y)

/-- Embedding of `Cells.get` (src/RasterArray.py:381-394):
`return self.array[Offsets[1], Offsets[0]]`. -/
def Cells.get (c : Cells) (x y : ℚ) (geographic : Bool) : Option ℚ :=
  let o := c.offsets x y geographic
  (qIndex c.rows o.2).bind fun r =>
    (qIndex c.cols o.1).map fun cc => c.array r cc

/-- Embedding of `Cells.modify` (src/RasterArray.py:338-351):
`self.array[Offsets[1], Offsets[0]] = value`. -/
def Cells.modify (c : Cells) (x y value : ℚ) (geographic : Bool) : Option Cells :=
  let o := c.offsets x y geographic
  (qIndex c.rows o.2).bind fun r =>
    (qIndex c.cols o.1).map fun cc =>
      { c with array := fun r2 c2 => if r2 = r ∧ c2 = cc then value else c.array r2 c2 }

/-! Embedding of one raw cycle of `GameofLife.cycle` (src/RasterArray.py:610-635).
The loop reads every value from the frozen snapshot `inBoard` (a fresh `Cells`
re-read from `self.inRaster`, equal in value to `self.board`) and conditionally
writes into the evolving `board` (`self.board`). -/

/-- One neighbor read of the cycle loop:
`inBoard.get(l%cols, k%rows, geographic=False)` (src/RasterArray.py:620-622).
Python `%` with a positive modulus is `Int.emod`. -/
def neighborLookup (b : Cells) (l k : ℤ) : Option ℚ :=
  b.get (((l % (b.cols : ℤ)) : ℤ) : ℚ) (((k % (b.rows : ℤ)) : ℤ) : ℚ) false

/-- The toroidally wrapped cell value at (possibly out-of-range) column `l`,
row `k`: the value read by `neighborLookup` when the grid is nonempty. -/
def cellAt (b : Cells) (l k : ℤ) : ℚ :=
  b.array (k % (b.rows : ℤ)).toNat (l % (b.cols : ℤ)).toNat

/-- The neighbor-counting double loop (src/RasterArray.py:616-622):
`for k in range(i-1, i+2): for l in range(j-1, j+2): if (l,k) != (j,i):
sumNeighbors += inBoard.get(l%cols, k%rows, geographic=False)`. -/
def sumNeighborsM (b : Cells) (j i : ℤ) : Option ℚ :=
  ((List.range 3).map fun (a : ℕ) => i - 1 + (a : ℤ)).foldlM
    (fun acc k =>
      ((List.range 3).map fun (a : ℕ) => j - 1 + (a : ℤ)).foldlM
        (fun acc2 l =>
          if (l, k) ≠ (j, i) then (neighborLookup b l k).map fun v => acc2 + v
          else some acc2)
        acc)
    (0 : ℚ)

/-- The body of the cell loop for one cell `(col j, row i)`
(src/RasterArray.py:612-635): read `boardValue` and `sumNeighbors` from
`inBoard`, then conditionally `self.board.modify(j,i,·,geographic=False)`. -/
def cycleCell (inBoard board : Cells) (i j : ℕ) : Option Cells :=
  (inBoard.get (j : ℚ) (i : ℚ) false).bind fun boardValue =>
    (sumNeighborsM inBoard (j : ℤ) (i : ℤ)).bind fun sumNeighbors =>
      if boardValue = 1 then
        if sumNeighbors < 2 then board.modify (j : ℚ) (i : ℚ) 0 false
        else if sumNeighbors > 3 then board.modify (j : ℚ) (i : ℚ) 0 false
        else some board
      else if boardValue = 0 ∧ sumNeighbors = 3 then board.modify (j : ℚ) (i : ℚ) 1 false
      else some board

/-- The full double loop over the board
(`for i in range(0, rows): for j in range(0, cols)`, src/RasterArray.py:610-611),
threading the evolving `board` while reading only from `inBoard`. -/
def cycleGrid (rows cols : ℕ) (inBoard board : Cells) : Option Cells :=
  (List.range rows).foldlM
    (fun b i => (List.range cols).foldlM (fun b2 j => cycleCell inBoard b2 i j) b)
    board

/-- Total (non-monadic) value of the neighbor sum: the eight toroidally
wrapped neighbor reads of cell `(col j, row i)`, in loop order. -/
def neighborSum (b : Cells) (j i : ℤ) : ℚ :=
  cellAt b (j - 1) (i - 1) + cellAt b j (i - 1) + cellAt b (j + 1) (i - 1) +
    cellAt b (j - 1) i + cellAt b (j + 1) i +
    cellAt b (j - 1) (i + 1) + cellAt b j (i + 1) + cellAt b (j + 1) (i + 1)

/-- The value the cycle loop leaves at cell `(row i, col j)`, as a pure
function of the frozen pre-step board: the rule branches of
src/RasterArray.py:624-635, with "no write" leaving the pre-step value. -/
def newVal (inB : Cells) (i j : ℕ) : ℚ :=
  let boardValue := inB.array i j
  let s := neighborSum inB (j : ℤ) (i : ℤ)
  if boardValue = 1 then
    if s < 2 then 0 else if s > 3 then 0 else boardValue
  else if boardValue = 0 ∧ s = 3 then 1
  else boardValue

/-- The successor board of one raw cycle as a pure function of the pre-step
board. -/
def stepped (b : Cells) : Cells :=
  { b with array := fun r c => if r < b.rows ∧ c < b.cols then newVal b r c else b.array r c }

/-- Spec-side offsets of the 8 neighbors: `dc, dr ∈ {-1,0,1}` without `(0,0)`. -/
def nbhdOffsets : List (ℤ × ℤ) :=
  [(-1, -1), (0, -1), (1, -1), (-1, 0), (1, 0), (-1, 1), (0, 1), (1, 1)]

/-- Spec-side count of live toroidal neighbors of `(col, row)`: the number of
the 8 neighbors, read at `((col+dc) mod C, (row+dr) mod R)`, whose value is 1
(claim C1's wording). -/
def liveNeighbors (b : Cells) (col row : ℤ) : ℕ :=
  ((nbhdOffsets.map fun d => cellAt b (col + d.1) (row + d.2)).filter
    fun v => decide (v = 1)).length

/-- Spec-side successor rule table of claim C1 for a cell value in `{0, 1}`:
Alive with fewer than 2 or more than 3 live neighbors dies, Alive with 2 or 3
survives, Dead with exactly 3 is born, Dead otherwise stays Dead. -/
def claimRule (v : ℚ) (liveN : ℕ) : ℚ :=
  if v = 1 then (if liveN < 2 ∨ 3 < liveN then 0 else 1)
  else if liveN = 3 then 1 else 0

/-- Iterated raw cycles, each reading the previous successor (claim C10). -/
def runSteps : ℕ → Cells → Option Cells
  | 0, b => some b
  | n + 1, b => (cycleGrid b.rows b.cols b b).bind (runSteps n)

/-- A concrete 2×2 grid with four distinct cell values, used as input of
witnesses and counterexamples. -/
def cellsCex : Cells :=
  ⟨fun r c => (r : ℚ) * 2 + (c : ℚ), 4326, 2, 2, ((0 : ℚ), (0 : ℚ)), 1, 1⟩

/-- A concrete all-dead 1×1 grid (cell values in `{0,1}`). -/
def gLife : Cells :=
  ⟨fun _ _ => 0, 4326, 1, 1, ((0 : ℚ), (0 : ℚ)), 1, 1⟩

/-- A concrete 1×1 grid whose single cell holds the non-{0,1} value 5. -/
def gTen : Cells :=
  ⟨fun _ _ => 5, 4326, 1, 1, ((0 : ℚ), (0 : ℚ)), 1, 1⟩

/-! Embedding of the `GameofLife` controller (src/RasterArray.py:503-696).
Runs are modelled as pure folds that also emit the externally observable
events of the loop: raw board updates, cycle-counter increments, raster
saves, and display notifications. -/

/-- Observable events of a `GameofLife` run. `incr cy amount` is a counter
increment at loop iteration `cy`; `save layer cyc cy` is a raster save under
layer name `layer` while the counter holds `cyc`, at iteration `cy`;
`display layer cy` is a display notification. -/
inductive Event where
  | step : ℕ → Event
  | incr : ℕ → ℕ → Event
  | save : String → ℕ → ℕ → Event
  | display : String → ℕ → Event
  deriving DecidableEq

def Event.isStep : Event → Bool
  | .step _ => true
  | _ => false

def Event.isIncr : Event → Bool
  | .incr _ _ => true
  | _ => false

def Event.isSave : Event → Bool
  | .save _ _ _ => true
  | _ => false

def Event.isDisplay : Event → Bool
  | .display _ _ => true
  | _ => false

/-- The loop iteration number an event belongs to. -/
def Event.evtCycle : Event → ℕ
  | .step cy => cy
  | .incr cy _ => cy
  | .save _ _ cy => cy
  | .display _ cy => cy

/-- The layer name of a save or display event. -/
def Event.layer : Event → String
  | .save s _ _ => s
  | .display s _ => s
  | _ => ""

/-- The cycle-counter value attached to a save event. -/
def Event.savedCount : Event → ℕ
  | .save _ cyc _ => cyc
  | _ => 0

/-- Embedding of the `GameofLife` controller state (src/RasterArray.py:550-562).
`startBoard` models the raster content stored at the `startRaster` path
(never overwritten by the run, since every cycle is saved under a
"cycle…" name). -/
structure GameofLife where
  startRaster : String
  inRaster : String
  output : String
  cycles : ℕ
  board : Cells
  startBoard : Cells
  overwrite : Bool

/-- The layer naming of step saves (src/RasterArray.py:638-643):
`"cycle"` when overwriting, `"cycle" + str(self.cycles)` otherwise. -/
def layerName (overwrite : Bool) (cycles : ℕ) : String :=
  if overwrite then "cycle" else "cycle" ++ toString cycles

/-- One iteration of the cyclenum loop of `GameofLife.cycle`
(src/RasterArray.py:599-659): increment `self.cycles` by `jump` when
`cyclenum % jump == 0`; run one raw board cycle reading from the frozen
snapshot; save the board under `layerName`; display it when
`cyclenum % jump == 0 or cyclenum + 1 == iterations`. The saved raster is
re-read as the new board (persistence round-trip modelled as the identity). -/
def cycleIter (g : GameofLife) (jump iterations cyclenum : ℕ) :
    Option (GameofLife × List Event) :=
  let cycles := if cyclenum % jump = 0 then g.cycles + jump else g.cycles
  let incrEvts : List Event := if cyclenum % jump = 0 then [.incr cyclenum jump] else []
  (cycleGrid g.board.rows g.board.cols g.board g.board).map fun newBoard =>
    let outLayer := layerName g.overwrite cycles
    let dispEvts : List Event :=
      if cyclenum % jump = 0 ∨ cyclenum + 1 = iterations then [.display outLayer cyclenum]
      else []
    ({ g with
        cycles := cycles
        board := newBoard
        inRaster := g.output ++ "/" ++ outLayer ++ ".tif" },
      incrEvts ++ [.step cyclenum, .save outLayer cycles cyclenum] ++ dispEvts)

/-- Embedding of `GameofLife.cycle(n, jump)` (src/RasterArray.py:592-660):
`iterations = (n*jump)+1`, `for cyclenum in range(1, iterations)`. Returns
the final controller state and the event trace of the run. -/
def GameofLife.cycle (g : GameofLife) (n jump : ℕ) : Option (GameofLife × List Event) :=
  let iterations := n * jump + 1
  (List.range' 1 (n * jump)).foldlM
    (fun st cyclenum =>
      (cycleIter st.1 jump iterations cyclenum).map fun gt => (gt.1, st.2 ++ gt.2))
    (g, ([] : List Event))

/-- Construction of the controller (src/RasterArray.py:507-558): when no
raster is given, a start board is generated and saved as `"start"`
(`start.tif` in the output directory); a caller-supplied raster path is used
as-is, without saving. -/
def GameofLife.init (raster : Option String) (startBoard : Cells)
    (output : String) (overwrite : Bool) : GameofLife × List Event :=
  match raster with
  | none =>
      ({ startRaster := output ++ "/" ++ "start.tif",
         inRaster := output ++ "/" ++ "start.tif",
         output := output, cycles := 0, board := startBoard,
         startBoard := startBoard, overwrite := overwrite },
       [.save "start" 0 0])
  | some path =>
      ({ startRaster := path, inRaster := path, output := output, cycles := 0,
         board := startBoard, startBoard := startBoard, overwrite := overwrite },
       [])

/-- Python's `"cycle" in file_path` substring test (src/RasterArray.py:689). -/
def cycleSub (s : String) : Bool := decide ("cycle".toList <:+: s.toList)

/-- Embedding of `GameofLife.reset` (src/RasterArray.py:675-696): restore
`cycles`, `inRaster` and the board from the start raster; then, for every
file of the output directory (`files`), request deletion when its joined
path contains the substring `"cycle"`; a failed deletion (per the `deleteOk`
oracle) is collected as a warning and swallowed. Returns
(new state, deletion requests, warnings). -/
def GameofLife.reset (g : GameofLife) (files : List String) (deleteOk : String → Bool) :
    GameofLife × List String × List String :=
  let g2 := { g with cycles := 0, inRaster := g.startRaster, board := g.startBoard }
  let requests := files.filter fun f => cycleSub (g.output ++ "/" ++ f)
  let warnings := requests.filter fun f => ! deleteOk f
  (g2, requests, warnings)

/-- A concrete controller over the 1×1 all-dead board, overwrite policy on. -/
def golBase : GameofLife :=
  { startRaster := "out/start.tif", inRaster := "out/start.tif", output := "out",
    cycles := 0, board := gLife, startBoard := gLife, overwrite := true }

/-- Variant of `golBase` with the overwrite policy off. -/
def golNoOverwrite : GameofLife := { golBase with overwrite := false }

/-- Variant of `golBase` with an output directory whose path contains `"cycle"`; its
start snapshot lives at `"cycleout/start.tif"`. -/
def golCycleDir : GameofLife :=
  { startRaster := "cycleout" ++ "/" ++ "start.tif"
    inRaster := "cycleout" ++ "/" ++ "start.tif"
    output := "cycleout"
    cycles := 0
    board := gLife
    startBoard := gLife
    overwrite := true }

/-! Truncation lemmas for the coordinate transform. -/

lemma rat_floor_num_den (q : ℚ) : ⌊q⌋ = q.num / (q.den : ℤ) := by
  conv_lhs => rw [← Rat.num_div_den q]
  exact Rat.floor_intCast_div_natCast q.num q.den

lemma pyInt_eq_ratTrunc (q : ℚ) : pyInt q = ratTrunc q := by
  unfold pyInt ratTrunc
  by_cases h : 0 ≤ q
  · rw [if_pos h]
    have hnum : 0 ≤ q.num := Rat.num_nonneg.mpr h
    rw [rat_floor_num_den]
    exact (Int.tdiv_eq_ediv hnum (by positivity)).symm
  · rw [if_neg h]
    push_neg at h
    have hnum : q.num < 0 := Rat.num_neg.mpr h
    have hceil : ⌈q⌉ = -⌊-q⌋ := by
      rw [← Int.ceil_neg, neg_neg]
    have hfl : ⌊-q⌋ = (-q.num) / (q.den : ℤ) := by
      have : -q = ((-q.num : ℤ) : ℚ) / ((q.den : ℕ) : ℚ) := by
        push_cast
        rw [neg_div, Rat.num_div_den q]
      rw [this]
      exact Rat.floor_intCast_div_natCast (-q.num) q.den
    rw [hceil, hfl, ← Int.tdiv_eq_ediv (by omega) (by positivity), Int.neg_tdiv, neg_neg]

lemma xyOffset_eq_trunc (x y : ℚ) (o : ℚ × ℚ) (cw ch : ℚ) :
    xyOffset x y o cw ch = (ratTrunc ((x - o.1) / cw), ratTrunc ((y + 1 - o.2) / ch)) := by
  unfold xyOffset
  rw [pyInt_eq_ratTrunc, pyInt_eq_ratTrunc]

lemma pyInt_natCast_add_half (n : ℕ) : pyInt ((n : ℚ) + 1 / 2) = n := by
  unfold pyInt
  rw [if_pos (by positivity)]
  rw [Int.floor_eq_iff]
  constructor
  · push_cast; linarith
  · push_cast; linarith

/-- Claim C3 counterexample: at `x = -1/2`, `y = 0`, origin `(0,0)`,
`cellWidth = cellHeight = 1` (both nonzero), the code returns column `0`
(truncation toward zero) while the claimed `floor` formula gives `-1`. -/
theorem claim_C3_cex :
    xyOffset (-(1 : ℚ) / 2) 0 ((0 : ℚ), (0 : ℚ)) 1 1 = ((0 : ℤ), (1 : ℤ)) ∧
    xyOffsetFloorSpec (-(1 : ℚ) / 2) 0 ((0 : ℚ), (0 : ℚ)) 1 1 = ((-1 : ℤ), (1 : ℤ)) ∧
    xyOffset (-(1 : ℚ) / 2) 0 ((0 : ℚ), (0 : ℚ)) 1 1 ≠
      xyOffsetFloorSpec (-(1 : ℚ) / 2) 0 ((0 : ℚ), (0 : ℚ)) 1 1 := by
  have e1 : (-(1 : ℚ) / 2 - ((0 : ℚ), (0 : ℚ)).1) / 1 = -(1 / 2 : ℚ) := by norm_num
  have e2 : ((0 : ℚ) + 1 - ((0 : ℚ), (0 : ℚ)).2) / 1 = 1 := by norm_num
  have hx : pyInt (-(1 / 2 : ℚ)) = 0 := by
    unfold pyInt
    rw [if_neg (by norm_num)]
    exact Int.ceil_eq_iff.mpr (by norm_num)
  have hy : pyInt (1 : ℚ) = 1 := by
    unfold pyInt
    rw [if_pos (by norm_num)]
    exact Int.floor_eq_iff.mpr (by norm_num)
  have hfx : ⌊(-(1 / 2 : ℚ))⌋ = -1 := Int.floor_eq_iff.mpr (by norm_num)
  have hfy : ⌊(1 : ℚ)⌋ = 1 := Int.floor_eq_iff.mpr (by norm_num)
  have h1 : xyOffset (-(1 : ℚ) / 2) 0 ((0 : ℚ), (0 : ℚ)) 1 1 = ((0 : ℤ), (1 : ℤ)) := by
    unfold xyOffset
    rw [e1, e2, hx, hy]
  have h2 : xyOffsetFloorSpec (-(1 : ℚ) / 2) 0 ((0 : ℚ), (0 : ℚ)) 1 1 = ((-1 : ℤ), (1 : ℤ)) := by
    unfold xyOffsetFloorSpec
    rw [e1, e2, hfx, hfy]
  refine ⟨h1, h2, ?_⟩
  rw [h1, h2]
  decide

/-- Claim C3 (amended): for every rational input and nonzero cell dimensions,
`xyOffset` returns `col` and `row` as the quotients `(x - origin.x)/cellWidth`
and `(y + 1 - origin.y)/cellHeight` truncated toward zero (Python `int()`),
which is `floor` only for nonnegative quotients. -/
theorem claim_C3 (x y : ℚ) (o : ℚ × ℚ) (cw ch : ℚ) (hcw : cw ≠ 0) (hch : ch ≠ 0) :
    xyOffset x y o cw ch = (ratTrunc ((x - o.1) / cw), ratTrunc ((y + 1 - o.2) / ch)) := by
  unfold xyOffset
  rw [pyInt_eq_ratTrunc, pyInt_eq_ratTrunc]

theorem claim_C3_witness :
    (1 : ℚ) ≠ 0 ∧
    xyOffset (-(1 : ℚ) / 2) 0 ((0 : ℚ), (0 : ℚ)) 1 1 =
      (ratTrunc ((-(1 : ℚ) / 2 - 0) / 1), ratTrunc (((0 : ℚ) + 1 - 0) / 1)) :=
  ⟨by norm_num, claim_C3 (-(1 : ℚ) / 2) 0 ((0 : ℚ), (0 : ℚ)) 1 1 (by norm_num) (by norm_num)⟩


/-- Claim C9 counterexample: on a grid with origin `(0,0)`, `cellWidth = 1`,
`cellHeight = -1` (the conventional north-up sign), the center of cell
`(col,row) = (0,1)` is `(1/2, -3/2)`, and the Coordinate Transform maps it to
`(0, 0)`, not back to `(0, 1)`: the round-trip fails on the row component. -/
theorem claim_C9_cex :
    xyOffset ((0 : ℚ) + ((0 : ℚ) + 1 / 2) * 1) ((0 : ℚ) + ((1 : ℚ) + 1 / 2) * (-1))
        ((0 : ℚ), (0 : ℚ)) 1 (-1) = ((0 : ℤ), (0 : ℤ)) ∧
    ((0 : ℤ), (0 : ℤ)) ≠ ((0 : ℤ), (1 : ℤ)) := by
  refine ⟨?_, by decide⟩
  have e1 : ((0 : ℚ) + ((0 : ℚ) + 1 / 2) * 1 - ((0 : ℚ), (0 : ℚ)).1) / 1 = (1 / 2 : ℚ) := by
    norm_num
  have e2 : ((0 : ℚ) + ((1 : ℚ) + 1 / 2) * (-1) + 1 - ((0 : ℚ), (0 : ℚ)).2) / (-1)
      = (1 / 2 : ℚ) := by norm_num
  have hh : pyInt (1 / 2 : ℚ) = 0 := by
    unfold pyInt
    rw [if_pos (by norm_num)]
    exact Int.floor_eq_iff.mpr (by norm_num)
  unfold xyOffset
  rw [e1, e2, hh]

/-- Claim C9 (amended): for every in-range integer array index `(col,row)`,
applying the Coordinate Transform to the geographic center of the cell
returns `col` unchanged in the first component, but the second component is
`int(row + 1/2 + 1/cellHeight)` — because of the `y + 1` offset the row does
not round-trip in general (e.g. with `cellHeight = -1` every `row ≥ 1` comes
back as `row - 1`). -/
theorem claim_C9 (col row : ℕ) (x0 y0 cw ch : ℚ) (hcw : cw ≠ 0) (hch : ch ≠ 0) :
    xyOffset (x0 + ((col : ℚ) + 1 / 2) * cw) (y0 + ((row : ℚ) + 1 / 2) * ch)
        (x0, y0) cw ch
      = ((col : ℤ), pyInt ((row : ℚ) + 1 / 2 + 1 / ch)) := by
  unfold xyOffset
  have h1 : (x0 + ((col : ℚ) + 1 / 2) * cw - (x0, y0).1) / cw = (col : ℚ) + 1 / 2 := by
    field_simp
    ring
  have h2 : (y0 + ((row : ℚ) + 1 / 2) * ch + 1 - (x0, y0).2) / ch
      = (row : ℚ) + 1 / 2 + 1 / ch := by
    field_simp
    ring
  rw [h1, h2, pyInt_natCast_add_half]

/-! Characterization of `Cells.get` / `Cells.modify` on integer array references. -/

lemma npIndex_none_iff (n : ℕ) (i : ℤ) :
    npIndex n i = none ↔ i < -(n : ℤ) ∨ (n : ℤ) ≤ i := by
  unfold npIndex
  split_ifs with h1 h2 <;> simp <;> omega

lemma npIndex_bounds {n : ℕ} {i : ℤ} {r : ℕ} (h : npIndex n i = some r) :
    -(n : ℤ) ≤ i ∧ i < (n : ℤ) := by
  unfold npIndex at h
  split_ifs at h <;> omega

lemma npIndex_eq_some (n : ℕ) (i : ℤ) (h1 : -(n : ℤ) ≤ i) (h2 : i < (n : ℤ)) :
    npIndex n i = some ((if i < 0 then i + n else i).toNat) := by
  unfold npIndex
  split_ifs with ha hb <;> simp_all <;> omega

lemma qIndex_intCast (n : ℕ) (i : ℤ) : qIndex n ((i : ℤ) : ℚ) = npIndex n i := by
  unfold qIndex
  rw [Rat.den_intCast, Rat.num_intCast]
  simp

lemma get_array_eq (c : Cells) (jx iy : ℤ) :
    c.get ((jx : ℤ) : ℚ) ((iy : ℤ) : ℚ) false
      = (npIndex c.rows iy).bind fun r => (npIndex c.cols jx).map fun cc => c.array r cc := by
  unfold Cells.get Cells.offsets
  rw [if_neg (by simp)]
  dsimp only
  rw [qIndex_intCast, qIndex_intCast]

lemma modify_array_eq (c : Cells) (jx iy : ℤ) (v : ℚ) :
    c.modify ((jx : ℤ) : ℚ) ((iy : ℤ) : ℚ) v false
      = (npIndex c.rows iy).bind fun r => (npIndex c.cols jx).map fun cc =>
          { c with array := fun r2 c2 => if r2 = r ∧ c2 = cc then v else c.array r2 c2 } := by
  unfold Cells.modify Cells.offsets
  rw [if_neg (by simp)]
  dsimp only
  rw [qIndex_intCast, qIndex_intCast]

/-- Claim C7 counterexample: on the concrete 2×2 grid `cellsCex`, `get(-1, 0)`
in array mode has a resolved index with a negative component (outside
`[0,cols) × [0,rows)`), yet the call does not fail: numpy wraps the negative
column and the cell value of column `cols - 1` is returned. -/
theorem claim_C7_cex :
    cellsCex.get ((-1 : ℤ) : ℚ) ((0 : ℤ) : ℚ) false = some 1 ∧ (-1 : ℤ) < 0 := by
  constructor
  · rw [get_array_eq]
    have h1 : npIndex cellsCex.rows 0 = some 0 := by decide
    have h2 : npIndex cellsCex.cols (-1) = some 1 := by decide
    rw [h1, h2]
    show some (cellsCex.array 0 1) = some 1
    norm_num [cellsCex]
  · decide

/-- Claim C7 (amended): a `get`/`modify` call on a `Cells` grid fails
(IndexError, modelled `none`) exactly when the resolved index lies outside
the numpy-extended range `[-cols, cols) × [-rows, rows)`; a resolved index
inside `[0,cols) × [0,rows)` accesses that cell, while a resolved index with
a negative component in range does NOT fail: it silently wraps, accessing
column `col + cols` / row `row + rows`. Geographic mode first resolves the
index through the Coordinate Transform `xyOffset`. -/
theorem claim_C7 (c : Cells) (jx iy : ℤ) :
    (c.get ((jx : ℤ) : ℚ) ((iy : ℤ) : ℚ) false = none ↔
      (iy < -(c.rows : ℤ) ∨ (c.rows : ℤ) ≤ iy ∨ jx < -(c.cols : ℤ) ∨ (c.cols : ℤ) ≤ jx)) ∧
    ((-(c.cols : ℤ) ≤ jx ∧ jx < (c.cols : ℤ) ∧ -(c.rows : ℤ) ≤ iy ∧ iy < (c.rows : ℤ)) →
      c.get ((jx : ℤ) : ℚ) ((iy : ℤ) : ℚ) false
        = some (c.array (if iy < 0 then iy + c.rows else iy).toNat
                        (if jx < 0 then jx + c.cols else jx).toNat)) ∧
    (∀ x y : ℚ, c.get x y true
      = c.get (((xyOffset x y c.origin c.cellWidth c.cellHeight).1 : ℤ) : ℚ)
              (((xyOffset x y c.origin c.cellWidth c.cellHeight).2 : ℤ) : ℚ) false) ∧
    (∀ v : ℚ, (c.modify ((jx : ℤ) : ℚ) ((iy : ℤ) : ℚ) v false = none ↔
      c.get ((jx : ℤ) : ℚ) ((iy : ℤ) : ℚ) false = none)) ∧
    (∀ v : ℚ,
      (-(c.cols : ℤ) ≤ jx ∧ jx < (c.cols : ℤ) ∧ -(c.rows : ℤ) ≤ iy ∧ iy < (c.rows : ℤ)) →
      c.modify ((jx : ℤ) : ℚ) ((iy : ℤ) : ℚ) v false
        = some { c with array := fun r2 c2 =>
            if r2 = (if iy < 0 then iy + c.rows else iy).toNat ∧
               c2 = (if jx < 0 then jx + c.cols else jx).toNat
            then v else c.array r2 c2 }) := by
  refine ⟨?_, ?_, ?_, ?_, ?_⟩
  · rw [get_array_eq]
    cases hr : npIndex c.rows iy with
    | none =>
      simp only [Option.bind_eq_bind, Option.none_bind]
      rw [npIndex_none_iff] at hr
      simp only [true_iff]
      omega
    | some r =>
      have hb := npIndex_bounds hr
      cases hc : npIndex c.cols jx with
      | none =>
        rw [npIndex_none_iff] at hc
        simp
        omega
      | some cc =>
        have hb2 := npIndex_bounds hc
        simp
        omega
  · rintro ⟨h1, h2, h3, h4⟩
    rw [get_array_eq, npIndex_eq_some c.rows iy h3 h4, npIndex_eq_some c.cols jx h1 h2]
    rfl
  · intro x y
    unfold Cells.get Cells.offsets
    rw [if_pos rfl, if_neg (by simp)]
  · intro v
    rw [get_array_eq, modify_array_eq]
    cases hr : npIndex c.rows iy with
    | none => simp
    | some r =>
      cases hc : npIndex c.cols jx with
      | none => simp
      | some cc => simp
  · rintro v ⟨h1, h2, h3, h4⟩
    rw [modify_array_eq, npIndex_eq_some c.rows iy h3 h4, npIndex_eq_some c.cols jx h1 h2]
    rfl

theorem claim_C7_witness :
    (-(cellsCex.cols : ℤ) ≤ -1 ∧ (-1 : ℤ) < (cellsCex.cols : ℤ) ∧
      -(cellsCex.rows : ℤ) ≤ 0 ∧ (0 : ℤ) < (cellsCex.rows : ℤ)) ∧
    cellsCex.get ((-1 : ℤ) : ℚ) ((0 : ℤ) : ℚ) false
      = some (cellsCex.array (if (0 : ℤ) < 0 then (0 : ℤ) + cellsCex.rows else 0).toNat
                             (if (-1 : ℤ) < 0 then (-1 : ℤ) + cellsCex.cols else -1).toNat) :=
  ⟨by decide, (claim_C7 cellsCex (-1) 0).2.1 (by decide)⟩

theorem claim_C9_witness :
    (1 : ℚ) ≠ 0 ∧ (-1 : ℚ) ≠ 0 ∧
    xyOffset ((0 : ℚ) + ((0 : ℚ) + 1 / 2) * 1) ((0 : ℚ) + ((1 : ℚ) + 1 / 2) * (-1))
        ((0 : ℚ), (0 : ℚ)) 1 (-1)
      = (((0 : ℕ) : ℤ), pyInt (((1 : ℕ) : ℚ) + 1 / 2 + 1 / (-1))) := by
  refine ⟨by norm_num, by norm_num, ?_⟩
  have h := claim_C9 0 1 0 0 1 (-1) (by norm_num) (by norm_num)
  push_cast at h ⊢
  exact h

/-! Lemmas about the cycle loop: every read and write of the loop succeeds
and lands where the loop order says it does. -/

lemma npIndex_natCast (n j : ℕ) (h : j < n) : npIndex n (j : ℤ) = some j := by
  unfold npIndex
  rw [if_pos ⟨by positivity, by exact_mod_cast h⟩]
  simp

lemma get_nat (c : Cells) (j i : ℕ) (hj : j < c.cols) (hi : i < c.rows) :
    c.get (j : ℚ) (i : ℚ) false = some (c.array i j) := by
  rw [show ((j : ℕ) : ℚ) = (((j : ℕ) : ℤ) : ℚ) from by push_cast; rfl,
    show ((i : ℕ) : ℚ) = (((i : ℕ) : ℤ) : ℚ) from by push_cast; rfl,
    get_array_eq, npIndex_natCast _ _ hi, npIndex_natCast _ _ hj]
  rfl

lemma modify_nat (c : Cells) (j i : ℕ) (v : ℚ) (hj : j < c.cols) (hi : i < c.rows) :
    c.modify (j : ℚ) (i : ℚ) v false
      = some { c with array := fun r2 c2 => if r2 = i ∧ c2 = j then v else c.array r2 c2 } := by
  rw [show ((j : ℕ) : ℚ) = (((j : ℕ) : ℤ) : ℚ) from by push_cast; rfl,
    show ((i : ℕ) : ℚ) = (((i : ℕ) : ℤ) : ℚ) from by push_cast; rfl,
    modify_array_eq, npIndex_natCast _ _ hi, npIndex_natCast _ _ hj]
  rfl

lemma neighborLookup_eq (b : Cells) (hr : 0 < b.rows) (hc : 0 < b.cols) (l k : ℤ) :
    neighborLookup b l k = some (cellAt b l k) := by
  have hrz : ((b.rows : ℤ)) ≠ 0 := by positivity
  have hcz : ((b.cols : ℤ)) ≠ 0 := by positivity
  unfold neighborLookup cellAt
  rw [get_array_eq,
    npIndex_eq_some b.rows (k % (b.rows : ℤ)) (by have := Int.emod_nonneg k hrz; omega)
      (Int.emod_lt_of_pos k (by exact_mod_cast hr)),
    npIndex_eq_some b.cols (l % (b.cols : ℤ)) (by have := Int.emod_nonneg l hcz; omega)
      (Int.emod_lt_of_pos l (by exact_mod_cast hc))]
  have h1 : ¬(k % (b.rows : ℤ) < 0) := by
    have := Int.emod_nonneg k hrz; omega
  have h2 : ¬(l % (b.cols : ℤ) < 0) := by
    have := Int.emod_nonneg l hcz; omega
  rw [if_neg h1, if_neg h2]
  rfl

lemma rangeMap3 (i : ℤ) :
    (List.range 3).map (fun (a : ℕ) => i - 1 + (a : ℤ)) = [i - 1, i, i + 1] := by
  have h3 : List.range 3 = [0, 1, 2] := rfl
  rw [h3]
  simp only [List.map_cons, List.map_nil, List.cons.injEq, Nat.cast_zero, Nat.cast_one,
    Nat.cast_ofNat, and_true]
  omega

lemma sumNeighborsM_eq (b : Cells) (hr : 0 < b.rows) (hc : 0 < b.cols) (j i : ℤ) :
    sumNeighborsM b j i = some (neighborSum b j i) := by
  have hnl : ∀ l k : ℤ, neighborLookup b l k = some (cellAt b l k) :=
    neighborLookup_eq b hr hc
  have e1 : (j - 1 : ℤ) ≠ j := by omega
  have e2 : (i - 1 : ℤ) ≠ i := by omega
  have e3 : (j + 1 : ℤ) ≠ j := by omega
  have e4 : (i + 1 : ℤ) ≠ i := by omega
  unfold sumNeighborsM
  rw [rangeMap3, rangeMap3]
  simp only [List.foldlM_cons, List.foldlM_nil, hnl, ne_eq, Prod.mk.injEq, e1, e2, e3, e4,
    false_and, and_false, and_true, true_and, not_false_iff, not_true,
    if_true, if_false, ite_true, ite_false, Option.pure_def]
  simp
  unfold neighborSum
  congr 1 <;> try ring

lemma cycleCell_eq (inB b : Cells) (i j : ℕ)
    (hrows : b.rows = inB.rows) (hcols : b.cols = inB.cols)
    (hr : 0 < inB.rows) (hc : 0 < inB.cols)
    (hi : i < inB.rows) (hj : j < inB.cols)
    (hagree : b.array i j = inB.array i j) :
    cycleCell inB b i j
      = some { b with array := fun r2 c2 =>
          if r2 = i ∧ c2 = j then newVal inB i j else b.array r2 c2 } := by
  have hj' : j < b.cols := by omega
  have hi' : i < b.rows := by omega
  unfold cycleCell
  rw [get_nat inB j i hj hi, sumNeighborsM_eq inB hr hc]
  simp only [Option.bind_eq_bind, Option.some_bind]
  unfold newVal
  dsimp only
  by_cases h1 : inB.array i j = 1
  · rw [if_pos h1, if_pos h1]
    by_cases h2 : neighborSum inB (j : ℤ) (i : ℤ) < 2
    · rw [if_pos h2, if_pos h2, modify_nat b j i 0 hj' hi']
    · rw [if_neg h2, if_neg h2]
      by_cases h3 : neighborSum inB (j : ℤ) (i : ℤ) > 3
      · rw [if_pos h3, if_pos h3, modify_nat b j i 0 hj' hi']
      · rw [if_neg h3, if_neg h3]
        refine congrArg some (Cells.ext ?_ rfl rfl rfl rfl rfl rfl)
        funext r2 c2
        dsimp only
        by_cases h4 : r2 = i ∧ c2 = j
        · rw [if_pos h4, h4.1, h4.2, hagree, h1]
        · rw [if_neg h4]
  · rw [if_neg h1, if_neg h1]
    by_cases h4 : inB.array i j = 0 ∧ neighborSum inB (j : ℤ) (i : ℤ) = 3
    · rw [if_pos h4, if_pos h4, modify_nat b j i 1 hj' hi']
    · rw [if_neg h4, if_neg h4]
      refine congrArg some (Cells.ext ?_ rfl rfl rfl rfl rfl rfl)
      funext r2 c2
      dsimp only
      by_cases h5 : r2 = i ∧ c2 = j
      · rw [if_pos h5, h5.1, h5.2, hagree]
      · rw [if_neg h5]

lemma innerFold_eq (inB : Cells) (hr : 0 < inB.rows) (hc : 0 < inB.cols)
    (i : ℕ) (hi : i < inB.rows) :
    ∀ n : ℕ, n ≤ inB.cols → ∀ b : Cells,
      b.rows = inB.rows → b.cols = inB.cols →
      (∀ c2, c2 < inB.cols → b.array i c2 = inB.array i c2) →
      (List.range n).foldlM (fun b2 j => cycleCell inB b2 i j) b
        = some { b with array := fun r2 c2 =>
            if r2 = i ∧ c2 < n then newVal inB i c2 else b.array r2 c2 } := by
  intro n
  induction n with
  | zero =>
    intro _ b hbr hbc hag
    simp only [List.range_zero, List.foldlM_nil, Option.pure_def]
    refine congrArg some (Cells.ext ?_ rfl rfl rfl rfl rfl rfl)
    funext r2 c2
    dsimp only
    rw [if_neg (by omega)]
  | succ n ih =>
    intro hn b hbr hbc hag
    rw [List.range_succ, List.foldlM_append, ih (by omega) b hbr hbc hag]
    have hstep := cycleCell_eq inB
      { b with array := fun r2 c2 =>
          if r2 = i ∧ c2 < n then newVal inB i c2 else b.array r2 c2 }
      i n hbr hbc hr hc hi (by omega)
      (by dsimp only; rw [if_neg (by omega)]; exact hag n (by omega))
    simp only [Option.bind_eq_bind, Option.some_bind, List.foldlM_cons, List.foldlM_nil,
      Option.pure_def]
    rw [hstep]
    simp only [Option.some_bind]
    refine congrArg some (Cells.ext ?_ rfl rfl rfl rfl rfl rfl)
    funext r2 c2
    dsimp only
    by_cases hA : r2 = i ∧ c2 = n
    · rw [if_pos hA, if_pos (show r2 = i ∧ c2 < n + 1 by omega), hA.2]
    · rw [if_neg hA]
      by_cases hB : r2 = i ∧ c2 < n
      · rw [if_pos hB, if_pos (show r2 = i ∧ c2 < n + 1 by omega)]
      · rw [if_neg hB, if_neg (show ¬(r2 = i ∧ c2 < n + 1) by omega)]

lemma outerFold_eq (inB : Cells) (hr : 0 < inB.rows) (hc : 0 < inB.cols)
    (b : Cells) (hbr : b.rows = inB.rows) (hbc : b.cols = inB.cols)
    (hag : ∀ r2 c2, r2 < inB.rows → c2 < inB.cols → b.array r2 c2 = inB.array r2 c2) :
    ∀ m : ℕ, m ≤ inB.rows →
      (List.range m).foldlM
          (fun b2 i => (List.range inB.cols).foldlM (fun b3 j => cycleCell inB b3 i j) b2) b
        = some { b with array := fun r2 c2 =>
            if r2 < m ∧ c2 < inB.cols then newVal inB r2 c2 else b.array r2 c2 } := by
  intro m
  induction m with
  | zero =>
    intro _
    simp only [List.range_zero, List.foldlM_nil, Option.pure_def]
    refine congrArg some (Cells.ext ?_ rfl rfl rfl rfl rfl rfl)
    funext r2 c2
    dsimp only
    rw [if_neg (by omega)]
  | succ m ih =>
    intro hm
    rw [List.range_succ, List.foldlM_append, ih (by omega)]
    have hrow := innerFold_eq inB hr hc m (by omega) inB.cols le_rfl
      { b with array := fun r2 c2 =>
          if r2 < m ∧ c2 < inB.cols then newVal inB r2 c2 else b.array r2 c2 }
      hbr hbc
      (by
        intro c2 hc2
        dsimp only
        rw [if_neg (by omega)]
        exact hag m c2 (by omega) hc2)
    simp only [Option.bind_eq_bind, Option.some_bind, List.foldlM_cons, List.foldlM_nil,
      Option.pure_def]
    rw [hrow]
    simp only [Option.some_bind]
    refine congrArg some (Cells.ext ?_ rfl rfl rfl rfl rfl rfl)
    funext r2 c2
    dsimp only
    by_cases hA : r2 = m ∧ c2 < inB.cols
    · rw [if_pos hA, if_pos (show r2 < m + 1 ∧ c2 < inB.cols by omega), hA.1]
    · rw [if_neg hA]
      by_cases hB : r2 < m ∧ c2 < inB.cols
      · rw [if_pos hB, if_pos (show r2 < m + 1 ∧ c2 < inB.cols by omega)]
      · rw [if_neg hB, if_neg (show ¬(r2 < m + 1 ∧ c2 < inB.cols) by omega)]

lemma cycleGrid_eq (b : Cells) (hr : 0 < b.rows) (hc : 0 < b.cols) :
    cycleGrid b.rows b.cols b b = some (stepped b) := by
  unfold cycleGrid
  have h := outerFold_eq b hr hc b rfl rfl (fun _ _ _ _ => rfl) b.rows le_rfl
  rw [h]
  rfl

lemma sum_filter_01 : ∀ l : List ℚ, (∀ v ∈ l, v = 0 ∨ v = 1) →
    l.sum = ((l.filter fun v => decide (v = 1)).length : ℚ) := by
  intro l
  induction l with
  | nil => intro _; simp
  | cons a t ih =>
    intro h
    have ha := h a (List.mem_cons_self a t)
    have ht : ∀ v ∈ t, v = 0 ∨ v = 1 := fun v hv => h v (List.mem_cons_of_mem a hv)
    rcases ha with h0 | h1
    · subst h0
      rw [List.sum_cons, List.filter_cons]
      simp only [decide_eq_true_eq, zero_add, ih ht]
      norm_num
    · subst h1
      rw [List.sum_cons, List.filter_cons]
      simp only [decide_eq_true_eq, ih ht]
      norm_num
      push_cast
      ring

lemma cellAt_01 (b : Cells) (hr : 0 < b.rows) (hc : 0 < b.cols)
    (h01 : ∀ r, r < b.rows → ∀ c, c < b.cols → b.array r c = 0 ∨ b.array r c = 1)
    (l k : ℤ) : cellAt b l k = 0 ∨ cellAt b l k = 1 := by
  unfold cellAt
  apply h01
  · have h1 := Int.emod_nonneg k (show ((b.rows : ℤ)) ≠ 0 by positivity)
    have h2 := Int.emod_lt_of_pos k (show (0 : ℤ) < (b.rows : ℤ) by exact_mod_cast hr)
    omega
  · have h1 := Int.emod_nonneg l (show ((b.cols : ℤ)) ≠ 0 by positivity)
    have h2 := Int.emod_lt_of_pos l (show (0 : ℤ) < (b.cols : ℤ) by exact_mod_cast hc)
    omega

lemma neighborSum_eq_liveN (b : Cells) (hr : 0 < b.rows) (hc : 0 < b.cols)
    (h01 : ∀ r, r < b.rows → ∀ c, c < b.cols → b.array r c = 0 ∨ b.array r c = 1)
    (j i : ℤ) :
    neighborSum b j i = (liveNeighbors b j i : ℚ) := by
  have hvals := cellAt_01 b hr hc h01
  have e : ∀ z : ℤ, z + (-1) = z - 1 := fun z => by ring
  have hmap : (nbhdOffsets.map fun d => cellAt b (j + d.1) (i + d.2))
      = [cellAt b (j - 1) (i - 1), cellAt b j (i - 1), cellAt b (j + 1) (i - 1),
         cellAt b (j - 1) i, cellAt b (j + 1) i,
         cellAt b (j - 1) (i + 1), cellAt b j (i + 1), cellAt b (j + 1) (i + 1)] := by
    simp only [nbhdOffsets, List.map_cons, List.map_nil]
    simp only [e, add_zero]
  unfold liveNeighbors
  rw [hmap, ← sum_filter_01 _ (by
    intro v hv
    simp only [List.mem_cons, List.not_mem_nil, or_false] at hv
    rcases hv with rfl | rfl | rfl | rfl | rfl | rfl | rfl | rfl <;> exact hvals _ _)]
  unfold neighborSum
  simp only [List.sum_cons, List.sum_nil]
  ring

/-- Claim C1: on a grid whose cells are all in {0,1}, one raw cycle of
`GameofLife.cycle` computes, for every cell, its successor from the frozen
pre-step grid by the rule table (underpopulation, overcrowding, survival,
reproduction), all reads coming from the pre-step snapshot: the sequential
loop `cycleGrid` equals the pure pointwise function `stepped`, and the new
value of every in-range cell is `claimRule` of its pre-step value and its
count of live toroidal neighbors of the pre-step grid. -/
theorem claim_C1 (b : Cells) (hr : 0 < b.rows) (hc : 0 < b.cols)
    (h01 : ∀ r, r < b.rows → ∀ c, c < b.cols → b.array r c = 0 ∨ b.array r c = 1) :
    cycleGrid b.rows b.cols b b = some (stepped b) ∧
    ∀ r, r < b.rows → ∀ c, c < b.cols →
      (stepped b).array r c = claimRule (b.array r c) (liveNeighbors b (c : ℤ) (r : ℤ)) := by
  refine ⟨cycleGrid_eq b hr hc, ?_⟩
  intro r hrlt c hclt
  have hs : neighborSum b (c : ℤ) (r : ℤ) = (liveNeighbors b (c : ℤ) (r : ℤ) : ℚ) :=
    neighborSum_eq_liveN b hr hc h01 (c : ℤ) (r : ℤ)
  have harr : (stepped b).array r c = newVal b r c := by
    unfold stepped
    dsimp only
    rw [if_pos ⟨hrlt, hclt⟩]
  rw [harr]
  unfold newVal claimRule
  dsimp only
  rw [hs]
  have hc1 : ((liveNeighbors b (c : ℤ) (r : ℤ) : ℚ) < 2)
      ↔ (liveNeighbors b (c : ℤ) (r : ℤ) < 2) := by exact_mod_cast Iff.rfl
  have hc2 : ((liveNeighbors b (c : ℤ) (r : ℤ) : ℚ) > 3)
      ↔ (3 < liveNeighbors b (c : ℤ) (r : ℤ)) := by exact_mod_cast Iff.rfl
  have hc3 : ((liveNeighbors b (c : ℤ) (r : ℤ) : ℚ) = 3)
      ↔ (liveNeighbors b (c : ℤ) (r : ℤ) = 3) := by exact_mod_cast Iff.rfl
  rcases h01 r hrlt c hclt with h0 | h1
  · rw [h0]
    simp only [hc1, hc2, hc3, show ¬((0 : ℚ) = 1) from by norm_num, if_false, ite_false,
      eq_self_iff_true, true_and, if_true, ite_true]
  · rw [h1]
    simp only [hc1, hc2, hc3, eq_self_iff_true, if_true, ite_true]
    split_ifs <;> first | rfl | (exfalso; omega)

theorem claim_C1_witness :
    (0 < gLife.rows ∧ 0 < gLife.cols ∧
      ∀ r, r < gLife.rows → ∀ c, c < gLife.cols →
        gLife.array r c = 0 ∨ gLife.array r c = 1) ∧
    (cycleGrid gLife.rows gLife.cols gLife gLife = some (stepped gLife) ∧
      ∀ r, r < gLife.rows → ∀ c, c < gLife.cols →
        (stepped gLife).array r c
          = claimRule (gLife.array r c) (liveNeighbors gLife (c : ℤ) (r : ℤ))) := by
  have h01 : ∀ r, r < gLife.rows → ∀ c, c < gLife.cols →
      gLife.array r c = 0 ∨ gLife.array r c = 1 := fun r _ c _ => Or.inl rfl
  exact ⟨⟨by decide, by decide, h01⟩, claim_C1 gLife (by decide) (by decide) h01⟩

/-- Claim C2: neighbor lookup during a step is toroidal: the code's read
`inBoard.get(l%cols, k%rows, geographic=False)` at column `-1` equals the
read at column `cols - 1`, the read at row `rows` equals the read at row `0`,
every read returns the cell at `(col mod cols, row mod rows)` (no boundary),
and the neighbor-count loop sums exactly the 8 reads
`((col+dc) mod C, (row+dr) mod R)`, `dc, dr ∈ {-1,0,1}` minus the center. -/
theorem claim_C2 (b : Cells) (hr : 0 < b.rows) (hc : 0 < b.cols) :
    (∀ k : ℤ, neighborLookup b (-1) k = neighborLookup b ((b.cols : ℤ) - 1) k) ∧
    (∀ l : ℤ, neighborLookup b l (b.rows : ℤ) = neighborLookup b l 0) ∧
    (∀ l k : ℤ, neighborLookup b l k = some (cellAt b l k)) ∧
    (∀ j i : ℤ, sumNeighborsM b j i = some (neighborSum b j i)) := by
  refine ⟨?_, ?_, neighborLookup_eq b hr hc, fun j i => sumNeighborsM_eq b hr hc j i⟩
  · intro k
    unfold neighborLookup
    have h1 : (-1 : ℤ) % (b.cols : ℤ) = ((b.cols : ℤ) - 1) % (b.cols : ℤ) := by
      conv_lhs => rw [show (-1 : ℤ) = ((b.cols : ℤ) - 1) + (b.cols : ℤ) * (-1) from by ring]
      rw [Int.add_mul_emod_self_left]
    rw [h1]
  · intro l
    unfold neighborLookup
    have h2 : ((b.rows : ℤ)) % (b.rows : ℤ) = (0 : ℤ) % (b.rows : ℤ) := by
      rw [Int.emod_self, Int.zero_emod]
    rw [h2]

theorem claim_C2_witness :
    (0 < cellsCex.rows ∧ 0 < cellsCex.cols) ∧
    neighborLookup cellsCex (-1) 0 = neighborLookup cellsCex ((cellsCex.cols : ℤ) - 1) 0 :=
  ⟨⟨by decide, by decide⟩, (claim_C2 cellsCex (by decide) (by decide)).1 0⟩

lemma newVal_of_not01 (b : Cells) (i j : ℕ)
    (h0 : b.array i j ≠ 0) (h1 : b.array i j ≠ 1) :
    newVal b i j = b.array i j := by
  unfold newVal
  dsimp only
  rw [if_neg h1, if_neg (fun hcon => h0 hcon.1)]

lemma runSteps_preserves : ∀ (n : ℕ) (b : Cells), 0 < b.rows → 0 < b.cols →
    ∀ r c : ℕ, r < b.rows → c < b.cols → b.array r c ≠ 0 → b.array r c ≠ 1 →
    ∃ b' : Cells, runSteps n b = some b' ∧ b'.array r c = b.array r c := by
  intro n
  induction n with
  | zero => exact fun b _ _ r c _ _ _ _ => ⟨b, rfl, rfl⟩
  | succ m ih =>
    intro b hr hc r c hrlt hclt h0 h1
    have hval : (stepped b).array r c = b.array r c := by
      unfold stepped
      dsimp only
      rw [if_pos ⟨hrlt, hclt⟩]
      exact newVal_of_not01 b r c h0 h1
    obtain ⟨b', hrun, heq⟩ := ih (stepped b) hr hc r c hrlt hclt
      (by rw [hval]; exact h0) (by rw [hval]; exact h1)
    refine ⟨b', ?_, by rw [heq, hval]⟩
    show runSteps (m + 1) b = some b'
    unfold runSteps
    rw [cycleGrid_eq b hr hc]
    simpa using hrun

/-- Claim C10: a cell whose pre-step value is neither 0 nor 1 is never
written by any rule branch of the cycle loop, so its value persists unchanged
through every number of raw cycles. -/
theorem claim_C10 (b : Cells) (hr : 0 < b.rows) (hc : 0 < b.cols)
    (r c : ℕ) (hrlt : r < b.rows) (hclt : c < b.cols)
    (h0 : b.array r c ≠ 0) (h1 : b.array r c ≠ 1) :
    ∀ n : ℕ, ∃ b' : Cells, runSteps n b = some b' ∧ b'.array r c = b.array r c :=
  fun n => runSteps_preserves n b hr hc r c hrlt hclt h0 h1

theorem claim_C10_witness :
    (0 < gTen.rows ∧ 0 < gTen.cols ∧ (0 : ℕ) < gTen.rows ∧ (0 : ℕ) < gTen.cols ∧
      gTen.array 0 0 ≠ 0 ∧ gTen.array 0 0 ≠ 1) ∧
    (∃ b' : Cells, runSteps 2 gTen = some b' ∧ b'.array 0 0 = gTen.array 0 0) :=
  ⟨⟨by decide, by decide, by decide, by decide, by norm_num [gTen], by norm_num [gTen]⟩,
    claim_C10 gTen (by decide) (by decide) 0 0 (by decide) (by decide)
      (by norm_num [gTen]) (by norm_num [gTen]) 2⟩

/-! The controller run: one invariant-carrying induction over the cyclenum
loop that all of C4, C5 and C6 read off. -/

lemma succ_div_helper (m jump : ℕ) (hb : ¬(m + 1) % jump = 0) :
    (m + 1) / jump = m / jump := by
  rw [Nat.succ_div, if_neg (fun hcon => hb (Nat.mod_eq_zero_of_dvd hcon))]
  exact Nat.add_zero _

lemma succ_div_helper_pos (m jump : ℕ) (hb : (m + 1) % jump = 0) :
    (m + 1) / jump = m / jump + 1 := by
  rw [Nat.succ_div, if_pos (Nat.dvd_of_mod_eq_zero hb)]

lemma cycle_fold (jump : ℕ) (iterations : ℕ) (g0 : GameofLife)
    (hr : 0 < g0.board.rows) (hc : 0 < g0.board.cols) :
    ∀ m : ℕ, ∃ g' : GameofLife, ∃ t : List Event,
      (List.range' 1 m).foldlM
          (fun st cyclenum =>
            (cycleIter st.1 jump iterations cyclenum).map fun gt => (gt.1, st.2 ++ gt.2))
          (g0, ([] : List Event)) = some (g', t) ∧
      g'.cycles = g0.cycles + m / jump * jump ∧
      g'.board.rows = g0.board.rows ∧ g'.board.cols = g0.board.cols ∧
      g'.overwrite = g0.overwrite ∧ g'.output = g0.output ∧
      t.filter Event.isStep = (List.range' 1 m).map Event.step ∧
      t.filter Event.isIncr
        = (List.range (m / jump)).map (fun k => Event.incr ((k + 1) * jump) jump) ∧
      t.filter Event.isSave = (List.range' 1 m).map (fun cy =>
        Event.save (layerName g0.overwrite (g0.cycles + cy / jump * jump))
          (g0.cycles + cy / jump * jump) cy) ∧
      (∀ s cy, Event.display s cy ∈ t → cy % jump = 0 ∨ cy + 1 = iterations) := by
  intro m
  induction m with
  | zero =>
    refine ⟨g0, [], rfl, by simp, rfl, rfl, rfl, rfl, rfl, by simp, rfl, ?_⟩
    intro s cy h
    exact absurd h (List.not_mem_nil _)
  | succ m ih =>
    obtain ⟨g', t, hfold, hcyc, hbr, hbc, how, hout, hstep, hincr, hsave, hdisp⟩ := ih
    rw [List.range'_concat, List.foldlM_append, hfold]
    have hgrid : cycleGrid g'.board.rows g'.board.cols g'.board g'.board
        = some (stepped g'.board) :=
      cycleGrid_eq g'.board (by rw [hbr]; exact hr) (by rw [hbc]; exact hc)
    simp only [one_mul, List.foldlM_cons, List.foldlM_nil, Option.bind_eq_bind,
      Option.some_bind, Option.pure_def]
    unfold cycleIter
    rw [hgrid]
    simp only [Option.map_some, Option.some_bind]
    rw [Nat.add_comm 1 m]
    have hcNew : (if (m + 1) % jump = 0 then g'.cycles + jump else g'.cycles)
        = g0.cycles + (m + 1) / jump * jump := by
      by_cases hb : (m + 1) % jump = 0
      · rw [if_pos hb, hcyc, succ_div_helper_pos m jump hb]
        ring
      · rw [if_neg hb, hcyc, succ_div_helper m jump hb]
    rw [hcNew, how]
    refine ⟨_, _, rfl, rfl, hbr, hbc, rfl, hout, ?_, ?_, ?_, ?_⟩
    · rw [List.filter_append, hstep, List.map_append]
      congr 1
      simp only [List.filter_append, apply_ite (List.filter Event.isStep),
        List.filter_cons, List.filter_nil, Event.isStep, ite_self]
      simp
    · rw [List.filter_append, hincr]
      by_cases hb : (m + 1) % jump = 0
      · rw [succ_div_helper_pos m jump hb, List.range_succ, List.map_append]
        congr 1
        have hmul : (m / jump + 1) * jump = m + 1 := by
          rw [← succ_div_helper_pos m jump hb]
          exact Nat.div_mul_cancel (Nat.dvd_of_mod_eq_zero hb)
        simp only [List.filter_append, apply_ite (List.filter Event.isIncr),
          List.filter_cons, List.filter_nil, Event.isIncr, ite_self, if_pos hb]
        simp [hmul]
      · rw [succ_div_helper m jump hb]
        simp only [List.filter_append, apply_ite (List.filter Event.isIncr),
          List.filter_cons, List.filter_nil, Event.isIncr, ite_self, if_neg hb]
        simp
    · rw [List.filter_append, hsave, List.map_append]
      congr 1
      simp only [List.filter_append, apply_ite (List.filter Event.isSave),
        List.filter_cons, List.filter_nil, Event.isSave, ite_self]
      simp
    · intro s cy hmem
      rw [List.mem_append] at hmem
      rcases hmem with hmem | hmem
      · exact hdisp s cy hmem
      · rw [List.mem_append, List.mem_append] at hmem
        rcases hmem with (hmem | hmem) | hmem
        · by_cases hb : (m + 1) % jump = 0 <;> simp [hb] at hmem
        · simp at hmem
        · by_cases hd : (m + 1) % jump = 0 ∨ (m + 1) + 1 = iterations
          · rw [if_pos hd] at hmem
            simp at hmem
            rcases hmem with ⟨_, rfl⟩
            exact hd
          · rw [if_neg hd] at hmem
            exact absurd hmem (List.not_mem_nil _)

/-- Claim C4: a run of `cycle(n, jump)` with `n, jump ≥ 1` performs exactly
`n * jump` raw board-update cycles, and the cycle counter is incremented by
exactly `jump` at each of the `n` interval boundaries (iterations
`jump, 2*jump, …, n*jump`) and nowhere else, so it grows by `n * jump` over
the run. -/
theorem claim_C4 (g : GameofLife) (n jump : ℕ) (hn : 1 ≤ n) (hj : 1 ≤ jump)
    (hr : 0 < g.board.rows) (hc : 0 < g.board.cols) :
    ∃ g' t, GameofLife.cycle g n jump = some (g', t) ∧
      (t.filter Event.isStep).length = n * jump ∧
      t.filter Event.isIncr = (List.range n).map (fun k => Event.incr ((k + 1) * jump) jump) ∧
      g'.cycles = g.cycles + n * jump := by
  obtain ⟨g', t, hfold, hcyc, _, _, _, _, hstep, hincr, _, _⟩ :=
    cycle_fold jump (n * jump + 1) g hr hc (n * jump)
  have hdiv : n * jump / jump = n := Nat.mul_div_cancel n hj
  refine ⟨g', t, hfold, ?_, ?_, ?_⟩
  · rw [hstep, List.length_map, List.length_range']
  · rw [hincr, hdiv]
  · rw [hcyc, hdiv]

theorem claim_C4_witness :
    (1 ≤ 1 ∧ 0 < golBase.board.rows ∧ 0 < golBase.board.cols) ∧
    (∃ g' t, GameofLife.cycle golBase 1 1 = some (g', t) ∧
      (t.filter Event.isStep).length = 1 * 1 ∧
      t.filter Event.isIncr = (List.range 1).map (fun k => Event.incr ((k + 1) * 1) 1) ∧
      g'.cycles = golBase.cycles + 1 * 1) :=
  ⟨⟨le_rfl, by decide, by decide⟩,
    claim_C4 golBase 1 1 le_rfl le_rfl (by decide) (by decide)⟩

/-- Claim C5 counterexample: in the run `cycle(1, 2)` a raster save occurs
after raw cycle 1, which is not an interval boundary (`1 % 2 ≠ 0`): the code
saves after every raw cycle, not only at interval boundaries. -/
theorem claim_C5_cex :
    ((GameofLife.cycle golBase 1 2).map fun st => (st.2.filter Event.isSave).map Event.evtCycle)
      = some [1, 2] ∧ ¬(1 % 2 = 0) := by
  refine ⟨?_, by decide⟩
  obtain ⟨g', t, hfold, _, _, _, _, _, _, _, hsave, _⟩ :=
    cycle_fold 2 (1 * 2 + 1) golBase (by decide) (by decide) (1 * 2)
  have hcyc : GameofLife.cycle golBase 1 2 = some (g', t) := hfold
  rw [hcyc]
  dsimp only [Option.map]
  rw [hsave]
  rfl

/-- Claim C5 (amended): during a run of `cycle(n, jump)` a snapshot is saved
after every raw cycle — the saves' cyclenums are exactly `1, …, n*jump` —
while the display collaborator is notified only at interval boundaries
(iterations divisible by `jump`). -/
theorem claim_C5 (g : GameofLife) (n jump : ℕ) (hn : 1 ≤ n) (hj : 1 ≤ jump)
    (hr : 0 < g.board.rows) (hc : 0 < g.board.cols) :
    ∃ g' t, GameofLife.cycle g n jump = some (g', t) ∧
      (t.filter Event.isSave).map Event.evtCycle = List.range' 1 (n * jump) ∧
      (∀ s cy, Event.display s cy ∈ t → cy % jump = 0) := by
  obtain ⟨g', t, hfold, _, _, _, _, _, _, _, hsave, hdisp⟩ :=
    cycle_fold jump (n * jump + 1) g hr hc (n * jump)
  refine ⟨g', t, hfold, ?_, ?_⟩
  · rw [hsave, List.map_map]
    have hcomp : (Event.evtCycle ∘ fun cy =>
        Event.save (layerName g.overwrite (g.cycles + cy / jump * jump))
          (g.cycles + cy / jump * jump) cy) = id := by
      funext cy
      rfl
    rw [hcomp, List.map_id]
  · intro s cy hmem
    rcases hdisp s cy hmem with h | h
    · exact h
    · have hcy : cy = n * jump := by omega
      rw [hcy]
      exact Nat.mul_mod_left n jump

theorem claim_C5_witness :
    (1 ≤ 1 ∧ 1 ≤ 2 ∧ 0 < golBase.board.rows ∧ 0 < golBase.board.cols) ∧
    (∃ g' t, GameofLife.cycle golBase 1 2 = some (g', t) ∧
      (t.filter Event.isSave).map Event.evtCycle = List.range' 1 (1 * 2) ∧
      ∀ s cy, Event.display s cy ∈ t → cy % 2 = 0) :=
  ⟨⟨le_rfl, by omega, by decide, by decide⟩,
    claim_C5 golBase 1 2 le_rfl (by omega) (by decide) (by decide)⟩

/-- Claim C6 counterexample: with the overwrite policy off, the run
`cycle(2, 2)` saves its four steps under the names
`cycle0, cycle2, cycle2, cycle4`: raw cycles 2 and 3 reuse the slot
`"cycle2"`, so saved steps do not occupy uniquely numbered slots and the
full history is not retained. -/
theorem claim_C6_cex :
    ((GameofLife.cycle golNoOverwrite 2 2).map
        fun st => (st.2.filter Event.isSave).map Event.layer)
      = some ["cycle0", "cycle2", "cycle2", "cycle4"] ∧
    ¬(["cycle0", "cycle2", "cycle2", "cycle4"] : List String).Nodup := by
  refine ⟨?_, by decide⟩
  obtain ⟨g', t, hfold, _, _, _, _, _, _, _, hsave, _⟩ :=
    cycle_fold 2 (2 * 2 + 1) golNoOverwrite (by decide) (by decide) (2 * 2)
  have hcyc : GameofLife.cycle golNoOverwrite 2 2 = some (g', t) := hfold
  rw [hcyc]
  dsimp only [Option.map]
  rw [hsave]
  decide

/-- Claim C6 (amended): the start grid is saved under the fixed identifier
`"start"`; each step snapshot is saved under `"cycle"` when the overwrite
policy is on, and under `"cycle"` concatenated with the current cycle count
when it is off — but raw cycles within the same reporting interval share the
counter value, so the numbered slots are unique (full history retained) only
when `jump = 1`. -/
theorem claim_C6 (g : GameofLife) (n jump : ℕ) (hn : 1 ≤ n) (hj : 1 ≤ jump)
    (hr : 0 < g.board.rows) (hc : 0 < g.board.cols) :
    (∀ (sb : Cells) (out : String) (ow : Bool),
      (GameofLife.init none sb out ow).2 = [Event.save "start" 0 0]) ∧
    (∀ ow cyc, layerName ow cyc = if ow then "cycle" else "cycle" ++ toString cyc) ∧
    ∃ g' t, GameofLife.cycle g n jump = some (g', t) ∧
      t.filter Event.isSave = (List.range' 1 (n * jump)).map (fun cy =>
        Event.save (layerName g.overwrite (g.cycles + cy / jump * jump))
          (g.cycles + cy / jump * jump) cy) ∧
      (jump = 1 → ((t.filter Event.isSave).map Event.savedCount).Nodup) := by
  refine ⟨fun sb out ow => rfl, fun ow cyc => rfl, ?_⟩
  obtain ⟨g', t, hfold, _, _, _, _, _, _, _, hsave, _⟩ :=
    cycle_fold jump (n * jump + 1) g hr hc (n * jump)
  refine ⟨g', t, hfold, hsave, ?_⟩
  intro h1
  subst h1
  rw [hsave, List.map_map]
  have heq : (Event.savedCount ∘ fun cy =>
      Event.save (layerName g.overwrite (g.cycles + cy / 1 * 1)) (g.cycles + cy / 1 * 1) cy)
      = fun cy => g.cycles + cy := by
    funext cy
    simp [Event.savedCount, Nat.div_one, Nat.mul_one]
  rw [heq]
  exact List.Nodup.map (fun a b hab => by omega) (List.nodup_range' 1 (n * 1))

theorem claim_C6_witness :
    (1 ≤ 2 ∧ 1 ≤ 1 ∧ 0 < golNoOverwrite.board.rows ∧ 0 < golNoOverwrite.board.cols) ∧
    ((∀ (sb : Cells) (out : String) (ow : Bool),
      (GameofLife.init none sb out ow).2 = [Event.save "start" 0 0]) ∧
    (∀ ow cyc, layerName ow cyc = if ow then "cycle" else "cycle" ++ toString cyc) ∧
    ∃ g' t, GameofLife.cycle golNoOverwrite 2 1 = some (g', t) ∧
      t.filter Event.isSave = (List.range' 1 (2 * 1)).map (fun cy =>
        Event.save (layerName golNoOverwrite.overwrite (golNoOverwrite.cycles + cy / 1 * 1))
          (golNoOverwrite.cycles + cy / 1 * 1) cy) ∧
      (1 = 1 → ((t.filter Event.isSave).map Event.savedCount).Nodup)) :=
  ⟨⟨by omega, le_rfl, by decide, by decide⟩,
    claim_C6 golNoOverwrite 2 1 (by omega) le_rfl (by decide) (by decide)⟩

/-- Claim C8 counterexample: with an output directory whose path contains
`"cycle"` (here `"cycleout"`), the start snapshot `start.tif` — the one file
reset is supposed to spare — is itself requested for deletion, because the
deletion filter tests the substring `"cycle"` against the joined path
`"cycleout/start.tif"`. -/
theorem claim_C8_cex :
    golCycleDir.startRaster = golCycleDir.output ++ "/" ++ "start.tif" ∧
    (GameofLife.reset golCycleDir ["start.tif"] fun _ => true).2.1 = ["start.tif"] :=
  ⟨rfl, by decide⟩

/-- Claim C8 (amended): `reset` always terminates with the controller
restored — the grid replaced by a fresh copy of the start grid, the counter
zeroed — and the restoration is independent of deletion outcomes (deletion
failures only produce warnings, never abort). Deletion is requested exactly
for the files whose joined path `output ++ "/" ++ name` contains the
substring `"cycle"`: this includes every step snapshot (their names start
with `"cycle"`), and spares the start snapshot only when the rest of its
path avoids the substring `"cycle"`. -/
theorem claim_C8 (g : GameofLife) (files : List String) (deleteOk : String → Bool) :
    ((g.reset files deleteOk).1.cycles = 0 ∧
      (g.reset files deleteOk).1.board = g.startBoard ∧
      (g.reset files deleteOk).1.inRaster = g.startRaster) ∧
    (g.reset files deleteOk).1 = (g.reset files fun _ => true).1 ∧
    (∀ f, f ∈ (g.reset files deleteOk).2.1 ↔
      f ∈ files ∧ cycleSub (g.output ++ "/" ++ f) = true) ∧
    (∀ f, f ∈ files → cycleSub f = true → f ∈ (g.reset files deleteOk).2.1) ∧
    (g.reset files deleteOk).2.2
      = ((g.reset files deleteOk).2.1.filter fun f => ! deleteOk f) := by
  refine ⟨⟨rfl, rfl, rfl⟩, rfl, ?_, ?_, rfl⟩
  · intro f
    exact List.mem_filter
  · intro f hf hcyc
    refine List.mem_filter.mpr ⟨hf, ?_⟩
    have hin : ("cycle".toList <:+: f.toList) := of_decide_eq_true hcyc
    have hdata : (g.output ++ "/" ++ f).toList = (g.output ++ "/").toList ++ f.toList :=
      String.data_append _ _
    show decide ("cycle".toList <:+: (g.output ++ "/" ++ f).toList) = true
    rw [hdata]
    exact decide_eq_true (hin.trans (List.IsSuffix.isInfix (List.suffix_append _ _)))

theorem claim_C8_witness :
    ("cycle.tif" ∈ (["start.tif", "cycle.tif"] : List String) ∧ cycleSub "cycle.tif" = true) ∧
    "cycle.tif" ∈ (GameofLife.reset golBase ["start.tif", "cycle.tif"] fun _ => false).2.1 :=
  ⟨⟨by decide, by decide⟩,
    (claim_C8 golBase ["start.tif", "cycle.tif"] fun _ => false).2.2.2.1 "cycle.tif"
      (by decide) (by decide)⟩
